import Mathlib

/-!
Verification development for the chess-memory position extraction and
aggregation engine.  The definitions below are a shallow embedding of the
pipeline script src/backend/scripts/2_build_database_from_games.py: pure
Python helper functions become Lean functions, the stateful replay loop
becomes explicit state passing over a replay-state record, and the SQLite
positions table becomes a map from the normalized position key to its row.
Machine floats on clock values are modelled by exact rationals (the claims
under study concern presence, absence, signs and monotonicity of the
values, none of which is sensitive to binary rounding), and Python sets
are modelled by finite sets.  Stored JSON arrays that the script derives
from Python sets have no specified element order, so stored collections
are modelled as multisets (order-free, duplicate-preserving).
-/

instance {ε α : Type} [DecidableEq ε] [DecidableEq α] : DecidableEq (Except ε α) := fun a b =>
  match a, b with
  | Except.ok x, Except.ok y =>
    if h : x = y then isTrue (by rw [h]) else isFalse (by intro hh; cases hh; exact h rfl)
  | Except.error x, Except.error y =>
    if h : x = y then isTrue (by rw [h]) else isFalse (by intro hh; cases hh; exact h rfl)
  | Except.ok _, Except.error _ => isFalse (by intro hh; cases hh)
  | Except.error _, Except.ok _ => isFalse (by intro hh; cases hh)

/-- Python int() truncation of a real value toward zero, as applied by
the script in int(total_time_elapsed). -/

def pyTrunc (q : ℚ) : ℤ :=
  q.num.tdiv q.den

/-- Rational addition through mkRat.  The standard addition on the
rational numbers is irreducible for kernel evaluation, so the embedding
computes with this equivalent form; the bridge lemma below identifies the
two, and every proof works with the standard operation. -/

def qAdd (a b : ℚ) : ℚ :=
  mkRat (a.num * b.den + b.num * a.den) (a.den * b.den)

/-- Rational subtraction through mkRat, companion of qAdd. -/

def qSub (a b : ℚ) : ℚ :=
  mkRat (a.num * b.den - b.num * a.den) (a.den * b.den)

/-! ### Python string splitting

The script uses str.split both in full form (youtube_url.split with the
separator between timestamp parameters) and, inside urllib, with maxsplit
one.  Python str.split with a separator splits at every non-overlapping
occurrence, scanning left to right.  The implementation below uses a fuel
argument bounded by the string length so that every definition is
structurally recursive and evaluable. -/

def startsWithSeq : List Char → List Char → Bool
  | [], _ => true
  | _ :: _, [] => false
  | p :: ps, c :: cs => if c = p then startsWithSeq ps cs else false

def splitSeqAux (sep : List Char) : Nat → List Char → List Char → List (List Char)
  | 0, rest, acc => [acc.reverse ++ rest]
  | _ + 1, [], acc => [acc.reverse]
  | n + 1, c :: cs, acc =>
    if startsWithSeq sep (c :: cs) then
      acc.reverse :: splitSeqAux sep n ((c :: cs).drop sep.length) []
    else
      splitSeqAux sep n cs (c :: acc)

/-- Python str.split with a non-empty separator string. -/

def pySplit (s sep : String) : List String :=
  (splitSeqAux sep.toList (s.toList.length + 1) s.toList []).map List.asString

/-- ASCII lowercasing, modelling Python str.lower on the ASCII usernames
and URLs that occur in the inputs. -/

def lowerStr (s : String) : String :=
  (s.toList.map Char.toLower).asString

/-! ### Clock extraction (parse_clock)

Model of parse_clock from 2_build_database_from_games.py lines 91 to 115.
The Python code searches the comment for the first occurrence of the
regular expression with groups digits, digits, digits-or-dots, wrapped in
the clk tag, then converts the three groups with int, int and float.  The
pattern classes are pairwise disjoint from the literal characters that
follow them, so the leftmost regex match is computed by maximal-munch
scanning from each start position in turn, which is what the matcher
below does.  Python float raises ValueError on a group that is not a
valid decimal literal (for example two dots); that exception is not
caught anywhere in the script, which the Except error result models. -/

def isSpaceCh (c : Char) : Bool :=
  c = ' ' || c = '\t' || c = '\n' || c = '\r' || c.toNat = 11 || c.toNat = 12

def isDotDigit (c : Char) : Bool :=
  c.isDigit || c = '.'

def dropExact : List Char → List Char → Option (List Char)
  | [], cs => some cs
  | _ :: _, [] => none
  | p :: ps, c :: cs => if c = p then dropExact ps cs else none

def span1 (p : Char → Bool) (cs : List Char) : Option (List Char × List Char) :=
  let t := cs.takeWhile p
  if t.isEmpty then none else some (t, cs.dropWhile p)

def clkTagChars : List Char := String.toList "[%clk"

def matchClockAt (cs : List Char) : Option (List Char × List Char × List Char) := do
  let cs ← dropExact clkTagChars cs
  let (_, cs) ← span1 isSpaceCh cs
  let (g1, cs) ← span1 Char.isDigit cs
  let cs ← dropExact [':'] cs
  let (g2, cs) ← span1 Char.isDigit cs
  let cs ← dropExact [':'] cs
  let (g3, cs) ← span1 isDotDigit cs
  let _ ← dropExact [']'] cs
  pure (g1, g2, g3)

def searchClock : List Char → Option (List Char × List Char × List Char)
  | [] => none
  | c :: cs =>
    match matchClockAt (c :: cs) with
    | some r => some r
    | none => searchClock cs

/-- Numeric value of a non-empty list of decimal digits. -/

def digitsVal (cs : List Char) : Nat :=
  cs.foldl (fun a c => a * 10 + (c.toNat - 48)) 0

/-- Python float() restricted to strings of digits and dots, the only
strings the third regex group can produce: defined exactly when the
string has at most one dot and at least one digit. -/

def pyFloatDD (cs : List Char) : Option ℚ :=
  if cs.count '.' ≤ 1 ∧ cs.any Char.isDigit then
    let intPart := cs.takeWhile (fun c => c ≠ '.')
    let fracPart := (cs.dropWhile (fun c => c ≠ '.')).drop 1
    some (mkRat (digitsVal intPart * 10 ^ fracPart.length + digitsVal fracPart) (10 ^ fracPart.length))
  else
    none

/-- Value assembled from the three matched groups:
hours times 3600 plus minutes times 60 plus seconds. -/

def clockVal (g1 g2 : List Char) (secs : ℚ) : ℚ :=
  qAdd (qAdd (mkRat (digitsVal g1 * 3600) 1) (mkRat (digitsVal g2 * 60) 1)) secs

/-- parse_clock: ok none when the pattern is absent, ok some when the
matched seconds group is a valid decimal literal, error when float()
raises on the seconds group (uncaught in the script). -/

def parse_clock (comment : String) : Except Unit (Option ℚ) :=
  match searchClock comment.toList with
  | none => Except.ok none
  | some (g1, g2, g3) =>
    match pyFloatDD g3 with
    | none => Except.error ()
    | some secs => Except.ok (some (clockVal g1 g2 secs))

/-! ### YouTube URL handling

get_youtube_start_time from lines 118 to 133: urlparse extracts the query
component (Python urlsplit removes the fragment after the first hash,
then takes everything after the first question mark), parse_qs collects
the values listed for each key (splitting fields on ampersands, each
field at its first equals sign, dropping valueless and empty-valued
fields; percent-decoding is omitted here as no input under study carries
escapes), and int() on the first t value, with ValueError caught to 0.
A missing t key defaults to the integer 0. -/

def sepHash : String := "#"

def sepQuestion : String := "?"

def sepAmp : String := "&"

def sepEq : String := "="

def keyT : String := "t"

def sepT : String := "&t="

def urlQuery (url : String) : String :=
  let beforeFrag := (pySplit url sepHash).headD url
  match pySplit beforeFrag sepQuestion with
  | [] => ""
  | [_] => ""
  | _ :: rest => String.intercalate sepQuestion rest

def parseQsT (query : String) : List String :=
  (pySplit query sepAmp).filterMap fun field =>
    match pySplit field sepEq with
    | [] => none
    | [_] => none
    | k :: rest =>
      let v := String.intercalate sepEq rest
      if k = keyT ∧ v ≠ "" then some v else none

/-- Python int() on a string: optional surrounding ASCII whitespace, an
optional sign, then one or more digits (numeric underscores omitted, as
no input under study carries them). -/

def pyIntOfStr (s : String) : Option ℤ :=
  let cs := (s.toList.dropWhile isSpaceCh).reverse
  let cs := (cs.dropWhile isSpaceCh).reverse
  match cs with
  | '+' :: ds => if ds ≠ [] ∧ ds.all Char.isDigit then some (digitsVal ds : ℤ) else none
  | '-' :: ds => if ds ≠ [] ∧ ds.all Char.isDigit then some (-(digitsVal ds : ℤ)) else none
  | ds => if ds ≠ [] ∧ ds.all Char.isDigit then some (digitsVal ds : ℤ) else none

def get_youtube_start_time (url : String) : ℤ :=
  match parseQsT (urlQuery url) with
  | [] => 0
  | v :: _ => (pyIntOfStr v).getD 0

/-- Video link construction from line 256: everything before the first
ampersand-t-equals separator, with the separator and the new link time
appended. -/

def buildVideoLink (url : String) (linkTime : ℤ) : String :=
  (pySplit url sepT).headD "" ++ sepT ++ toString linkTime

/-! ### Data model of the aggregation engine

A Ply is the per-move data the replay loop reads from the parsed game:
the normalized position key the board simulator reports before the move
(the snapshot rendering on lines 241 to 244), the standard algebraic
rendering of the move (board.san on line 261), the side to move
(board.turn on line 218) and the raw comment attached to the move.  The
first two are outputs of the python-chess board simulator, treated here
as trusted per-ply observations.  A GameRecord carries the matched
YouTube URL, the two player usernames from the api_game header, and the
ply list of the mainline. -/

structure Ply where
  fen : String
  san : String
  whiteToMove : Bool
  comment : String
deriving DecidableEq

structure GameRecord where
  youtubeUrl : String
  whiteUsername : String
  blackUsername : String
  plies : List Ply
deriving DecidableEq

/-- Row value of the positions table: the three stored JSON arrays,
with the two move collections always produced from Python sets, and the
video collection produced either from a Python list (INSERT branch) or a
Python set (UPDATE branch), hence a multiset. -/

structure Entry where
  videos : Multiset String
  nextByDaniel : Finset String
  nextFaced : Finset String
deriving DecidableEq

/-- Per-game accumulator value for one key of the positions dictionary
(lines 247 to 252): videos is a Python list built by append, the two
move collections are Python sets. -/

structure GEntry where
  videos : List String
  nextByDaniel : Finset String
  nextFaced : Finset String
deriving DecidableEq

/-- The positions dictionary built while replaying one game. -/

def GameMap : Type := String → Option GEntry

/-- The positions table of the SQLite database, keyed by normalized FEN. -/

def Index : Type := String → Option Entry

def emptyIndex : Index := fun _ => none

/-- The four known usernames of the subject, lines 195 to 200. -/

def daniel_usernames : List String :=
  ["senseidanya", "ohmylands", "frankfurtairport", "hebeccararis"]

def whiteWord : String := "white"

def blackWord : String := "black"

/-- Determination of the color the subject plays, line 203: the
lowercased white username is compared against the known set; every other
game is assumed to have the subject playing black. -/

def daniel_color (whiteUsername : String) : String :=
  if lowerStr whiteUsername ∈ daniel_usernames then whiteWord else blackWord

/-- Replay state threaded through the move loop of one game, lines 209
to 269: the last seen clock of each side, the cumulative elapsed time,
and the positions dictionary.  The linkTimes field is instrumentation
recording the link_time value computed at each ply in order, used to
state the timestamp-monotonicity claims; it influences nothing. -/

structure ReplayState where
  lastClockWhite : Option ℚ
  lastClockBlack : Option ℚ
  totalTimeElapsed : ℚ
  positions : GameMap
  linkTimes : List ℤ

def initReplayState : ReplayState :=
  { lastClockWhite := none
    lastClockBlack := none
    totalTimeElapsed := mkRat 0 1
    positions := fun _ => none
    linkTimes := [] }

def emptyGEntry : GEntry :=
  { videos := [], nextByDaniel := ∅, nextFaced := ∅ }

/-- Body of the move loop, lines 215 to 269, for one ply: extract the
clock, add the positive part of the elapsed delta for the side to move,
update that side's last clock, look up or create the positions entry for
the normalized key, append the rewritten video link, and add the move to
the subject or opponent move set.  A ValueError escaping parse_clock
propagates as the error case. -/

def advanceTotal (total : ℚ) (lastClock currentClock : Option ℚ) : ℚ :=
  match lastClock, currentClock with
  | some l, some c =>
    let elapsed := qSub l c
    if mkRat 0 1 < elapsed then qAdd total elapsed else total
  | _, _ => total

def replayStep (url : String) (ystart : ℤ) (dColor : String) (st : ReplayState) (p : Ply) :
    Except Unit ReplayState :=
  match parse_clock p.comment with
  | Except.error e => Except.error e
  | Except.ok currentClock =>
    let toMove := if p.whiteToMove then whiteWord else blackWord
    let lastClock := if p.whiteToMove then st.lastClockWhite else st.lastClockBlack
    let total := advanceTotal st.totalTimeElapsed lastClock currentClock
    let lastW := if p.whiteToMove then currentClock else st.lastClockWhite
    let lastB := if p.whiteToMove then st.lastClockBlack else currentClock
    let info := (st.positions p.fen).getD emptyGEntry
    let linkTime := ystart + pyTrunc total
    let link := buildVideoLink url linkTime
    let info1 := { info with videos := info.videos ++ [link] }
    let info2 :=
      if toMove = dColor then
        { info1 with nextByDaniel := insert p.san info1.nextByDaniel }
      else
        { info1 with nextFaced := insert p.san info1.nextFaced }
    Except.ok
      { lastClockWhite := lastW
        lastClockBlack := lastB
        totalTimeElapsed := total
        positions := fun k => if k = p.fen then some info2 else st.positions k
        linkTimes := st.linkTimes ++ [linkTime] }

def runPlies (url : String) (ystart : ℤ) (dColor : String) :
    ReplayState → List Ply → Except Unit ReplayState
  | st, [] => Except.ok st
  | st, p :: ps =>
    match replayStep url ystart dColor st p with
    | Except.error e => Except.error e
    | Except.ok st1 => runPlies url ystart dColor st1 ps

/-- Full replay of one game record, lines 184 to 269. -/

def runGame (g : GameRecord) : Except Unit ReplayState :=
  runPlies g.youtubeUrl (get_youtube_start_time g.youtubeUrl) (daniel_color g.whiteUsername)
    initReplayState g.plies

/-- The positions dictionary a game contributes, or the uncaught
exception. -/

def replayGame (g : GameRecord) : Except Unit GameMap :=
  match runGame g with
  | Except.error e => Except.error e
  | Except.ok st => Except.ok st.positions

/-- Positions dictionary of a game whose replay succeeds, empty map on
the exception path. -/

def replayPositions (g : GameRecord) : GameMap :=
  match replayGame g with
  | Except.error _ => fun _ => none
  | Except.ok m => m

/-- Sequence of link_time values the replay computes ply by ply. -/

def linkTimesOf (g : GameRecord) : List ℤ :=
  match runGame g with
  | Except.error _ => []
  | Except.ok st => st.linkTimes

/-! ### The merge into the database, lines 271 to 312

For each key of the per-game dictionary, the script reads the stored
row: when the key exists the three stored arrays are loaded into Python
sets, unioned with the per-game values and written back (the UPDATE
branch); when it does not, the per-game values are written verbatim, so
the video list keeps duplicates and order while the two move sets are
serialized from sets (the INSERT branch). -/

def mergeEntry : Option Entry → GEntry → Entry
  | some e, info =>
    { videos := (e.videos.toFinset ∪ info.videos.toFinset).val
      nextByDaniel := e.nextByDaniel ∪ info.nextByDaniel
      nextFaced := e.nextFaced ∪ info.nextFaced }
  | none, info =>
    { videos := (info.videos : Multiset String)
      nextByDaniel := info.nextByDaniel
      nextFaced := info.nextFaced }

/-- Merge the per-game dictionary into the database: keys absent from
the dictionary are untouched, every key present goes through the UPDATE
or INSERT branch according to whether the database already holds it. -/

def mergeMap (ix : Index) (m : GameMap) : Index :=
  fun k =>
    match m k with
    | none => ix k
    | some info => some (mergeEntry (ix k) info)

/-- Merging one game record: replay, then merge the resulting
dictionary; a game whose replay raises contributes nothing. -/

def mergeRecord (ix : Index) (g : GameRecord) : Index :=
  match replayGame g with
  | Except.error _ => ix
  | Except.ok m => mergeMap ix m

def isOkE {α : Type} (e : Except Unit α) : Bool :=
  match e with
  | Except.ok _ => true
  | Except.error _ => false

/-! ### Batch processing, lines 165 to 322

A RawGame is one entry of a game data file before parsing: the matched
URL, the two usernames, and the movetext.  The movetext is represented by
its parse outcome, which is what the replay loop consumes: the plies the
PGN reader parses successfully, whether the movetext continues with a
move that is illegal or unparseable on the replayed board, and whether
the record fails to parse entirely.

The function read_game is modelled from the python-chess library used on
line 188: chess.pgn.read_game returns None only when no game can be read
from the text at all; when a movetext token is illegal in the replayed
position, the default error handler logs the error, the remainder of the
game is skipped, and the returned game object keeps every move parsed
before the error.  The script contains no code discarding those earlier
moves. -/

structure RawGame where
  youtubeUrl : String
  whiteUsername : String
  blackUsername : String
  legalPlies : List Ply
  illegalTail : Bool
  unparseable : Bool

/-- Parsed game of a raw record: the mainline is truncated at the first
illegal move and earlier plies are kept. -/

def gameOf (r : RawGame) : GameRecord :=
  { youtubeUrl := r.youtubeUrl
    whiteUsername := r.whiteUsername
    blackUsername := r.blackUsername
    plies := r.legalPlies }

def read_game (r : RawGame) : Option GameRecord :=
  if r.unparseable then none else some (gameOf r)

/-- The per-file loop over game records, lines 179 to 316: a record that
fails to parse is skipped with a log line and processing continues; a
parsed record is replayed and merged; an exception escaping the replay
aborts the whole run. -/

def processBatch : Index → List RawGame → Except Unit Index
  | ix, [] => Except.ok ix
  | ix, r :: rs =>
    match read_game r with
    | none => processBatch ix rs
    | some g =>
      match replayGame g with
      | Except.error e => Except.error e
      | Except.ok m => processBatch (mergeMap ix m) rs

/-- Database row at a key after a batch run, or none when the run
aborted with an exception. -/

def indexAtAfterBatch (rs : List RawGame) (k : String) : Option (Option Entry) :=
  match processBatch emptyIndex rs with
  | Except.error _ => none
  | Except.ok ix => some (ix k)

/-! ### The board snapshot and the position key normalizer

The key construction on lines 241 to 244 reads four observables of the
python-chess board: board_fen(), turn, castling_xfen() and ep_square.
The board state is embedded with an explicit square list (square index
is rank times eight plus file, square zero being a1, matching
python-chess), the side to move, the rendered castling field, and the
en-passant square.  The castling field is carried as the string
castling_xfen() renders, since no claim under study depends on how that
rendering is computed.  board_fen() is computed from the squares below
exactly as the library renders it: ranks from eighth to first joined by
slashes, runs of empty squares as digits. -/

inductive PieceColor
  | white
  | black
deriving DecidableEq

inductive PieceKind
  | pawn
  | knight
  | bishop
  | rook
  | queen
  | king
deriving DecidableEq

structure Piece where
  color : PieceColor
  kind : PieceKind
deriving DecidableEq

structure Board where
  squares : List (Option Piece)
  turn : PieceColor
  castling : String
  epSquare : Option Nat
deriving DecidableEq

def getSq (b : Board) (sq : Nat) : Option Piece :=
  b.squares.getD sq none

def pieceChar (p : Piece) : Char :=
  match p.color, p.kind with
  | PieceColor.white, PieceKind.pawn => 'P'
  | PieceColor.white, PieceKind.knight => 'N'
  | PieceColor.white, PieceKind.bishop => 'B'
  | PieceColor.white, PieceKind.rook => 'R'
  | PieceColor.white, PieceKind.queen => 'Q'
  | PieceColor.white, PieceKind.king => 'K'
  | PieceColor.black, PieceKind.pawn => 'p'
  | PieceColor.black, PieceKind.knight => 'n'
  | PieceColor.black, PieceKind.bishop => 'b'
  | PieceColor.black, PieceKind.rook => 'r'
  | PieceColor.black, PieceKind.queen => 'q'
  | PieceColor.black, PieceKind.king => 'k'

def emptyRunChar (n : Nat) : List Char :=
  if 0 < n then [Char.ofNat (48 + n)] else []

/-- One rank of board_fen, files a to h with empty runs as digits. -/

def rankFen (b : Board) (r : Nat) : List Char :=
  let acc :=
    (List.range 8).foldl
      (fun (acc : List Char × Nat) f =>
        match getSq b (8 * r + f) with
        | none => (acc.1, acc.2 + 1)
        | some p => (pieceChar p :: (emptyRunChar acc.2 ++ acc.1), 0))
      ([], 0)
  (emptyRunChar acc.2 ++ acc.1).reverse

def joinSlash : List (List Char) → List Char
  | [] => []
  | [x] => x
  | x :: xs => x ++ '/' :: joinSlash xs

def board_fen (b : Board) : String :=
  (joinSlash (((List.range 8).reverse).map (rankFen b))).asString

/-- python-chess square_name: file letter then rank digit. -/

def squareName (sq : Nat) : String :=
  [Char.ofNat (97 + sq % 8), Char.ofNat (49 + sq / 8)].asString

def dashS : String := "-"

def spaceS : String := " "

def wS : String := "w"

def bS : String := "b"

/-- En-passant field of the key, line 244: the square name whenever the
board reports an en-passant square, the dash otherwise. -/

def epField (b : Board) : String :=
  match b.epSquare with
  | some e => squareName e
  | none => dashS

def turnS (b : Board) : String :=
  if b.turn = PieceColor.white then wS else bS

/-- The normalized position key, lines 241 to 244: board layout, side to
move, castling field and en-passant field joined by spaces. -/

def fen_normalized (b : Board) : String :=
  board_fen b ++ spaceS ++ turnS b ++ spaceS ++ b.castling ++ spaceS ++ epField b

def flipColor : PieceColor → PieceColor
  | PieceColor.white => PieceColor.black
  | PieceColor.black => PieceColor.white

/-- The fragment of python-chess Board.push exercised by the claims
under study: the piece on the origin square moves to the target square
(replacing any piece there), the turn flips, and the en-passant square
is cleared and then set to the skipped square exactly when a pawn
advances two ranks from its initial rank.  Castling-rights bookkeeping,
which only king and rook moves can change, promotions and the removal of
a pawn captured en passant are not modelled; no claim exercises them. -/

def pushMove (b : Board) (f t : Nat) : Board :=
  let moved := getSq b f
  let sqs := (b.squares.set t moved).set f none
  let ep : Option Nat :=
    match moved with
    | some p =>
      if p.kind = PieceKind.pawn then
        if f / 8 = 1 ∧ t = f + 16 then some (f + 8)
        else if f / 8 = 6 ∧ f = t + 16 then some (f - 8)
        else none
      else none
    | none => none
  { squares := sqs, turn := flipColor b.turn, castling := b.castling, epSquare := ep }

/-- Double-pawn-push predicate in the words of the specification: the
moved piece is a pawn advancing two ranks from its initial rank. -/

def isDoublePawnPush (b : Board) (f t : Nat) : Prop :=
  (∃ p : Piece, getSq b f = some p ∧ p.kind = PieceKind.pawn) ∧
    ((f / 8 = 1 ∧ t = f + 16) ∨ (f / 8 = 6 ∧ f = t + 16))

def wPc : Option Piece := some { color := PieceColor.white, kind := PieceKind.pawn }

def wNc : Option Piece := some { color := PieceColor.white, kind := PieceKind.knight }

def wBc : Option Piece := some { color := PieceColor.white, kind := PieceKind.bishop }

def wRc : Option Piece := some { color := PieceColor.white, kind := PieceKind.rook }

def wQc : Option Piece := some { color := PieceColor.white, kind := PieceKind.queen }

def wKc : Option Piece := some { color := PieceColor.white, kind := PieceKind.king }

def bPc : Option Piece := some { color := PieceColor.black, kind := PieceKind.pawn }

def bNc : Option Piece := some { color := PieceColor.black, kind := PieceKind.knight }

def bBc : Option Piece := some { color := PieceColor.black, kind := PieceKind.bishop }

def bRc : Option Piece := some { color := PieceColor.black, kind := PieceKind.rook }

def bQc : Option Piece := some { color := PieceColor.black, kind := PieceKind.queen }

def bKc : Option Piece := some { color := PieceColor.black, kind := PieceKind.king }

/-- The standard starting position. -/

def startBoard : Board :=
  { squares :=
      [wRc, wNc, wBc, wQc, wKc, wBc, wNc, wRc] ++ List.replicate 8 wPc ++
        List.replicate 32 none ++ List.replicate 8 bPc ++
        [bRc, bNc, bBc, bQc, bKc, bBc, bNc, bRc]
    turn := PieceColor.white
    castling := "KQkq"
    epSquare := none }

/-- Necessary condition for an en passant capture to be legal for the
side to move: a pawn of that side stands on an adjacent file ready to
capture onto the en-passant square.  Full legality (python-chess
has_legal_en_passant) additionally requires the capture not to leave the
own king in check, so legality implies this condition; its failure
therefore refutes legality. -/

def epCapturePossible (b : Board) : Bool :=
  match b.epSquare with
  | none => false
  | some e =>
    match b.turn with
    | PieceColor.white =>
      (decide (0 < e % 8) && decide (getSq b (e - 9) = wPc)) ||
        (decide (e % 8 < 7) && decide (getSq b (e - 7) = wPc))
    | PieceColor.black =>
      (decide (0 < e % 8) && decide (getSq b (e + 7) = bPc)) ||
        (decide (e % 8 < 7) && decide (getSq b (e + 9) = bPc))

/-- Duplicate-freedom of the video list of one per-game dictionary
value. -/

def gVideosNodup : Option GEntry → Prop
  | none => True
  | some i => i.videos.Nodup

instance (o : Option GEntry) : Decidable (gVideosNodup o) :=
  match o with
  | none => isTrue trivial
  | some i => inferInstanceAs (Decidable i.videos.Nodup)

/-- Elapsed-time contribution of one ply in the words of the
specification: previous reading minus new reading when both are present
and that difference is positive, zero otherwise. -/

def clockDelta : Option ℚ → Option ℚ → ℚ
  | some l, some c => if 0 < l - c then l - c else 0
  | some _, none => 0
  | none, some _ => 0
  | none, none => 0

/-! ### Concrete inputs used by counterexamples and witnesses

The keys below are the normalized keys the engine computes for the
positions of two short games: the knight dance 1 Nf3 Nf6 2 Ng1 Ng8 3 e4,
whose fifth ply repeats the starting position, and the opening 1 e4 e5.
The starting-position key and the key after 1 e4 match the strings used
by the repository test file src/backend/tests/test_fen.py. -/

def urlNoParam : String := "https://youtu.be/v1"

def linkT0 : String := "https://youtu.be/v1&t=0"

def fenStartKey : String := "rnbqkbnr/pppppppp/8/8/8/8/PPPPPPPP/RNBQKBNR w KQkq -"

def fenAfterNf3 : String := "rnbqkbnr/pppppppp/8/8/8/5N2/PPPPPPPP/RNBQKB1R b KQkq -"

def fenAfterNf6 : String := "rnbqkb1r/pppppppp/5n2/8/8/5N2/PPPPPPPP/RNBQKB1R w KQkq -"

def fenAfterNg1 : String := "rnbqkb1r/pppppppp/5n2/8/8/8/PPPPPPPP/RNBQKBNR b KQkq -"

def fenAfterE4 : String := "rnbqkbnr/pppppppp/8/8/4P3/8/PPPP1PPP/RNBQKBNR b KQkq e3"

/-- Game repeating the starting position at its fifth ply, with no clock
annotations: the starting key receives the same video link twice. -/

def gameRepeat : GameRecord :=
  { youtubeUrl := urlNoParam
    whiteUsername := "alice"
    blackUsername := "bob"
    plies :=
      [ { fen := fenStartKey, san := "Nf3", whiteToMove := true, comment := "" }
      , { fen := fenAfterNf3, san := "Nf6", whiteToMove := false, comment := "" }
      , { fen := fenAfterNf6, san := "Ng1", whiteToMove := true, comment := "" }
      , { fen := fenAfterNg1, san := "Ng8", whiteToMove := false, comment := "" }
      , { fen := fenStartKey, san := "e4", whiteToMove := true, comment := "" } ] }

/-- Two plies of 1 e4 e5 without clock annotations. -/

def gameTwoPly : GameRecord :=
  { youtubeUrl := urlNoParam
    whiteUsername := "alice"
    blackUsername := "bob"
    plies :=
      [ { fen := fenStartKey, san := "e4", whiteToMove := true, comment := "" }
      , { fen := fenAfterE4, san := "e5", whiteToMove := false, comment := "" } ] }

def gameA : GameRecord :=
  { youtubeUrl := urlNoParam
    whiteUsername := "alice"
    blackUsername := "bob"
    plies := [ { fen := fenStartKey, san := "Nf3", whiteToMove := true, comment := "" } ] }

def gameB : GameRecord :=
  { youtubeUrl := "https://youtu.be/v2"
    whiteUsername := "senseidanya"
    blackUsername := "carl"
    plies := [ { fen := fenStartKey, san := "e4", whiteToMove := true, comment := "" } ] }

/-- Raw record whose movetext contains one legal ply and then an illegal
move: the PGN reader keeps the first ply and skips the rest. -/

def rawIllegal : RawGame :=
  { youtubeUrl := urlNoParam
    whiteUsername := "alice"
    blackUsername := "bob"
    legalPlies := [ { fen := fenStartKey, san := "e4", whiteToMove := true, comment := "" } ]
    illegalTail := true
    unparseable := false }

/-- Raw record that cannot be parsed at all. -/

def rawBad : RawGame :=
  { youtubeUrl := urlNoParam
    whiteUsername := "alice"
    blackUsername := "bob"
    legalPlies := []
    illegalTail := false
    unparseable := true }

def entryZero : Entry := { videos := 0, nextByDaniel := ∅, nextFaced := ∅ }

def exUrlQ : String := "https://example/watch?t=50"

def exUrlAmp : String := "https://example/watch&t=50"

def exOut : String := "https://example/watch?t=50&t=70"

def commentBad : String := "[%clk 0:03:1.2.3]"

def commentGood : String := "[%clk 0:03:01.9]"

def commentNone : String := "no clock here"

def lastClockFor (st : ReplayState) (p : Ply) : Option ℚ :=
  if p.whiteToMove then st.lastClockWhite else st.lastClockBlack

/-- Elapsed-time contribution of one replay step, observed as the
difference of the cumulative totals around the step. -/

def stepElapsed (url : String) (ys : ℤ) (dc : String) (st : ReplayState) (p : Ply) : Option ℚ :=
  match replayStep url ys dc st p with
  | Except.error _ => none
  | Except.ok st1 => some (qSub st1.totalTimeElapsed st.totalTimeElapsed)

/-- Positions entry at one key right after one replay step. -/

def stepEntryAt (url : String) (ys : ℤ) (dc : String) (st : ReplayState) (p : Ply) (k : String) :
    Option (Option GEntry) :=
  match replayStep url ys dc st p with
  | Except.error _ => none
  | Except.ok st1 => some (st1.positions k)

def subjectColor (g : GameRecord) : String := daniel_color g.whiteUsername

def keyW : String := "k1"

def preEntryW : Entry := { videos := {"x"}, nextByDaniel := ∅, nextFaced := ∅ }

def infoW : GEntry := { videos := ["y", "y"], nextByDaniel := {"Nf3"}, nextFaced := ∅ }

def ixW : Index := fun k => if k = keyW then some preEntryW else none

def mW : GameMap := fun k => if k = keyW then some infoW else none

def eW : Entry := mergeEntry (some preEntryW) infoW

def urlU : String := "u0"

def clockSt : ReplayState :=
  { lastClockWhite := some (mkRat 300 1)
    lastClockBlack := none
    totalTimeElapsed := mkRat 7 1
    positions := fun _ => none
    linkTimes := [] }

def plyClock : Ply :=
  { fen := fenStartKey, san := "e4", whiteToMove := true, comment := "[%clk 0:04:40]" }

def curClock : Option ℚ :=
  match parse_clock plyClock.comment with
  | Except.ok c => c
  | Except.error _ => none

def gUnknown : GameRecord :=
  { youtubeUrl := urlNoParam
    whiteUsername := "RandomGuy"
    blackUsername := "bob"
    plies := [] }

def plyBlack : Ply :=
  { fen := fenAfterE4, san := "e5", whiteToMove := false, comment := "" }

theorem qAdd_eq (a b : ℚ) : qAdd a b = a + b := by
  have ha : (a.den : ℚ) ≠ 0 := Nat.cast_ne_zero.mpr a.den_ne_zero
  have hb : (b.den : ℚ) ≠ 0 := Nat.cast_ne_zero.mpr b.den_ne_zero
  rw [qAdd, Rat.mkRat_eq_div]
  conv_rhs => rw [← Rat.num_div_den a, ← Rat.num_div_den b]
  push_cast
  field_simp

theorem qSub_eq (a b : ℚ) : qSub a b = a - b := by
  have ha : (a.den : ℚ) ≠ 0 := Nat.cast_ne_zero.mpr a.den_ne_zero
  have hb : (b.den : ℚ) ≠ 0 := Nat.cast_ne_zero.mpr b.den_ne_zero
  rw [qSub, Rat.mkRat_eq_div]
  conv_rhs => rw [← Rat.num_div_den a, ← Rat.num_div_den b]
  push_cast
  field_simp
  ring

theorem pyTrunc_eq_floor (q : ℚ) (h : 0 ≤ q) : pyTrunc q = ⌊q⌋ := by
  rw [pyTrunc, Rat.floor_def]
  exact Int.tdiv_eq_ediv (Rat.num_nonneg.mpr h) (Int.ofNat_nonneg q.den)

/-! ### Helper lemmas -/

theorem mkRat_zero_one : mkRat 0 1 = (0 : ℚ) := by
  rw [Rat.mkRat_eq_div]
  norm_num

theorem mergeEntry_swap (o : Option Entry) (a b : GEntry) :
    mergeEntry (some (mergeEntry o a)) b = mergeEntry (some (mergeEntry o b)) a := by
  cases o with
  | none =>
    simp only [mergeEntry]
    congr 1
    · exact congrArg Finset.val (Finset.union_comm _ _)
    · exact Finset.union_comm _ _
    · exact Finset.union_comm _ _
  | some e =>
    simp only [mergeEntry, Finset.val_toFinset]
    congr 1
    · exact congrArg Finset.val (Finset.union_right_comm _ _ _)
    · exact Finset.union_right_comm _ _ _
    · exact Finset.union_right_comm _ _ _

theorem mergeMap_comm (ix : Index) (ma mb : GameMap) :
    mergeMap (mergeMap ix ma) mb = mergeMap (mergeMap ix mb) ma := by
  funext k
  simp only [mergeMap]
  cases hma : ma k with
  | none =>
    cases hmb : mb k with
    | none => rfl
    | some b => rfl
  | some a =>
    cases hmb : mb k with
    | none => rfl
    | some b => exact congrArg some (mergeEntry_swap (ix k) a b)

theorem mergeEntry_idem (o : Option Entry) (info : GEntry) (h : info.videos.Nodup) :
    mergeEntry (some (mergeEntry o info)) info = mergeEntry o info := by
  cases o with
  | none =>
    simp only [mergeEntry]
    congr 1
    · show (((info.videos : Multiset String).toFinset ∪
          (info.videos : Multiset String).toFinset)).val = (info.videos : Multiset String)
      rw [Finset.union_self]
      show ((info.videos : Multiset String).dedup) = (info.videos : Multiset String)
      exact Multiset.dedup_eq_self.mpr (Multiset.coe_nodup.mpr h)
    · exact Finset.union_self _
    · exact Finset.union_self _
  | some e =>
    simp only [mergeEntry, Finset.val_toFinset]
    congr 1
    · rw [Finset.union_assoc, Finset.union_self]
    · rw [Finset.union_assoc, Finset.union_self]
    · rw [Finset.union_assoc, Finset.union_self]

theorem mergeMap_idem (ix : Index) (m : GameMap) (h : ∀ k, gVideosNodup (m k)) :
    mergeMap (mergeMap ix m) m = mergeMap ix m := by
  funext k
  simp only [mergeMap]
  cases hm : m k with
  | none => rfl
  | some info =>
    have hk := h k
    rw [hm] at hk
    exact congrArg some (mergeEntry_idem (ix k) info hk)

theorem runPlies_untouched (url : String) (ys : ℤ) (dc : String) :
    ∀ (ps : List Ply) (st st' : ReplayState), runPlies url ys dc st ps = Except.ok st' →
      ∀ k, k ∉ ps.map Ply.fen → st'.positions k = st.positions k := by
  intro ps
  induction ps with
  | nil =>
    intro st st' h k _
    simp only [runPlies] at h
    cases h
    rfl
  | cons p ps ih =>
    intro st st' h k hk
    simp only [runPlies] at h
    cases hs : replayStep url ys dc st p with
    | error e => rw [hs] at h; cases h
    | ok st1 =>
      rw [hs] at h
      have hne : k ≠ p.fen := by
        intro he
        exact hk (by simp [he])
      have htail : k ∉ ps.map Ply.fen := by
        intro hm
        exact hk (by simp [hm])
      rw [ih st1 st' h k htail]
      simp only [replayStep] at hs
      cases hc : parse_clock p.comment with
      | error e => rw [hc] at hs; cases hs
      | ok cur =>
        rw [hc] at hs
        cases hs
        simp only [if_neg hne]

theorem advanceTotal_eq (total : ℚ) (l c : Option ℚ) :
    advanceTotal total l c = total + clockDelta l c := by
  cases l with
  | none => cases c <;> simp [advanceTotal, clockDelta]
  | some lv =>
    cases c with
    | none => simp [advanceTotal, clockDelta]
    | some cv =>
      simp only [advanceTotal, clockDelta, qSub_eq, qAdd_eq, mkRat_zero_one]
      split
      · rfl
      · simp

theorem clockDelta_nonneg (l c : Option ℚ) : 0 ≤ clockDelta l c := by
  cases l with
  | none => cases c <;> simp [clockDelta]
  | some lv =>
    cases c with
    | none => simp [clockDelta]
    | some cv =>
      simp only [clockDelta]
      split
      · linarith
      · exact le_refl 0

theorem advanceTotal_ge (total : ℚ) (l c : Option ℚ) : total ≤ advanceTotal total l c := by
  rw [advanceTotal_eq]
  have := clockDelta_nonneg l c
  linarith

/-- Shape of a successful replay step: the clock parse succeeded, the
cumulative total advanced by the clock delta, the recorded link time is
the base offset plus the truncated new total, and the positions map
changed only at the key of the ply. -/

theorem replayStep_ok_spec (url : String) (ys : ℤ) (dc : String) (st : ReplayState) (p : Ply)
    (st1 : ReplayState) (h : replayStep url ys dc st p = Except.ok st1) :
    ∃ cur, parse_clock p.comment = Except.ok cur ∧
      st1.totalTimeElapsed =
        advanceTotal st.totalTimeElapsed
          (if p.whiteToMove then st.lastClockWhite else st.lastClockBlack) cur ∧
      st1.linkTimes = st.linkTimes ++ [ys + pyTrunc st1.totalTimeElapsed] := by
  simp only [replayStep] at h
  cases hc : parse_clock p.comment with
  | error e => rw [hc] at h; cases h
  | ok cur =>
    rw [hc] at h
    cases h
    exact ⟨cur, rfl, rfl, rfl⟩

theorem pyTrunc_mono (a b : ℚ) (ha : 0 ≤ a) (hab : a ≤ b) : pyTrunc a ≤ pyTrunc b := by
  rw [pyTrunc_eq_floor a ha, pyTrunc_eq_floor b (le_trans ha hab)]
  exact Int.floor_le_floor hab

/-- Invariant of the replay loop: from a state with a nonnegative total
whose recorded link times are bounded by the current link time and
sorted, the loop preserves all of that; the total never decreases. -/

theorem runPlies_invariant (url : String) (ys : ℤ) (dc : String) :
    ∀ (ps : List Ply) (st st' : ReplayState),
      runPlies url ys dc st ps = Except.ok st' →
      0 ≤ st.totalTimeElapsed →
      (∀ t ∈ st.linkTimes, t ≤ ys + pyTrunc st.totalTimeElapsed) →
      List.Pairwise (fun a b => a ≤ b) st.linkTimes →
      0 ≤ st'.totalTimeElapsed ∧
        (∀ t ∈ st'.linkTimes, t ≤ ys + pyTrunc st'.totalTimeElapsed) ∧
        List.Pairwise (fun a b => a ≤ b) st'.linkTimes := by
  intro ps
  induction ps with
  | nil =>
    intro st st' h h0 hb hp
    simp only [runPlies] at h
    cases h
    exact ⟨h0, hb, hp⟩
  | cons p ps ih =>
    intro st st' h h0 hb hp
    simp only [runPlies] at h
    cases hs : replayStep url ys dc st p with
    | error e => rw [hs] at h; cases h
    | ok st1 =>
      rw [hs] at h
      obtain ⟨cur, _, htot, hlink⟩ := replayStep_ok_spec url ys dc st p st1 hs
      have hge : st.totalTimeElapsed ≤ st1.totalTimeElapsed := by
        rw [htot]
        exact advanceTotal_ge _ _ _
      have h0' : 0 ≤ st1.totalTimeElapsed := le_trans h0 hge
      have htr : pyTrunc st.totalTimeElapsed ≤ pyTrunc st1.totalTimeElapsed :=
        pyTrunc_mono _ _ h0 hge
      have hb' : ∀ t ∈ st1.linkTimes, t ≤ ys + pyTrunc st1.totalTimeElapsed := by
        intro t ht
        rw [hlink] at ht
        rcases List.mem_append.mp ht with hold | hnew
        · exact le_trans (hb t hold) (by omega)
        · rcases List.mem_singleton.mp hnew with rfl
          exact le_refl _
      have hp' : List.Pairwise (fun a b => a ≤ b) st1.linkTimes := by
        rw [hlink]
        rw [List.pairwise_append]
        refine ⟨hp, List.pairwise_singleton _ _, ?_⟩
        intro a ha b hbmem
        rcases List.mem_singleton.mp hbmem with rfl
        exact le_trans (hb a ha) (by omega)
      exact ih st1 st' h h0' hb' hp'

/-- A record that fails to parse is skipped: the batch result is the
batch result without it. -/

theorem processBatch_skip :
    ∀ (rs1 : List RawGame) (ix : Index) (r : RawGame) (rs2 : List RawGame),
      r.unparseable = true →
      processBatch ix (rs1 ++ r :: rs2) = processBatch ix (rs1 ++ rs2) := by
  intro rs1
  induction rs1 with
  | nil =>
    intro ix r rs2 h
    simp only [List.nil_append, processBatch, read_game, h, if_pos]
  | cons r0 rs ih =>
    intro ix r rs2 h
    simp only [List.cons_append, processBatch]
    cases h0 : read_game r0 with
    | none =>
      simp only [h0]
      exact ih ix r rs2 h
    | some g =>
      simp only [h0]
      cases h1 : replayGame g with
      | error e => simp only [h1]
      | ok m =>
        simp only [h1]
        exact ih (mergeMap ix m) r rs2 h

/-! ### Claim theorems -/

/-- Claim C1, counterexample: the claim states that the emitted
PositionKey contains an en-passant target square only when an en passant
capture is actually legal for the side to move.  After the double pawn
push e2 to e4 from the starting position (square 12 to square 28) no
black pawn can capture en passant, a necessary condition for legality,
yet the key emitted by the normalizer carries the target square e3 (the
same key string the repository test file expects). -/

theorem claim_C1_counterexample :
    fen_normalized (pushMove startBoard 12 28) = fenAfterE4 ∧
      epField (pushMove startBoard 12 28) ≠ dashS ∧
      epCapturePossible (pushMove startBoard 12 28) = false :=
  ⟨by decide, by decide, by decide⟩

theorem squareName_ne_dash (e : Nat) : squareName e ≠ dashS := by
  intro h
  have h2 : (2 : Nat) = 1 := congrArg (fun s => s.data.length) h
  exact absurd h2 (by decide)

/-- Claim C1, amended: the key is the concatenation of the four snapshot
components, its en-passant component is the dash exactly when the board
reports no en-passant square, and a replay step sets that square exactly
when the move is a double pawn push — regardless of whether any en
passant capture is legal. -/

theorem claim_C1_amended (b : Board) (f t : Nat) :
    fen_normalized b =
        board_fen b ++ spaceS ++ turnS b ++ spaceS ++ b.castling ++ spaceS ++ epField b ∧
      (epField b = dashS ↔ b.epSquare = none) ∧
      ((pushMove b f t).epSquare.isSome = true ↔ isDoublePawnPush b f t) := by
  refine ⟨rfl, ?_, ?_⟩
  · cases he : b.epSquare with
    | none => simp [epField, he]
    | some e =>
      simp only [epField, he]
      constructor
      · intro h
        exact absurd h (squareName_ne_dash e)
      · intro h
        cases h
  · have hps : (pushMove b f t).epSquare =
        (match getSq b f with
          | some p =>
            if p.kind = PieceKind.pawn then
              if f / 8 = 1 ∧ t = f + 16 then some (f + 8)
              else if f / 8 = 6 ∧ f = t + 16 then some (f - 8)
              else none
            else none
          | none => none) := rfl
    rw [hps]
    cases hq : getSq b f with
    | none =>
      simp [isDoublePawnPush, hq]
    | some p =>
      simp only [hq]
      by_cases hk : p.kind = PieceKind.pawn
      · rw [if_pos hk]
        by_cases h1 : f / 8 = 1 ∧ t = f + 16
        · rw [if_pos h1]
          constructor
          · intro _
            exact ⟨⟨p, hq, hk⟩, Or.inl h1⟩
          · intro _
            rfl
        · rw [if_neg h1]
          by_cases h2 : f / 8 = 6 ∧ f = t + 16
          · rw [if_pos h2]
            constructor
            · intro _
              exact ⟨⟨p, hq, hk⟩, Or.inr h2⟩
            · intro _
              rfl
          · rw [if_neg h2]
            simp [isDoublePawnPush, h1, h2]
      · rw [if_neg hk]
        simp [isDoublePawnPush, hq, hk]

/-- Claim C2, counterexample: merging the same GameRecord twice is not
always the same as merging it once.  The game 1 Nf3 Nf6 2 Ng1 Ng8 3 e4
observes the starting position twice with the same video link (no clock
annotations, so equal timestamps); the first merge INSERTs the per-game
video list verbatim with the duplicate, the second merge goes through
the UPDATE branch, which loads the stored values into sets and thereby
collapses the duplicate, changing the stored row. -/

theorem claim_C2_counterexample :
    mergeRecord (mergeRecord emptyIndex gameRepeat) gameRepeat ≠
      mergeRecord emptyIndex gameRepeat := by
  intro h
  have h2 := congrFun h fenStartKey
  exact absurd h2 (by decide)

/-- Claim C2, amended: merging the same GameRecord into an index twice
yields an index identical to merging it once, provided the video list
the game accumulates at each of its keys is duplicate-free (for example
whenever every ply carries a distinct timestamp); without that proviso
the second merge collapses exactly the duplicated video links that the
first merge inserted verbatim, while the two move collections are always
merged idempotently. -/

theorem claim_C2_amended (g : GameRecord) (ix : Index)
    (h : ∀ k ∈ g.plies.map Ply.fen, gVideosNodup (replayPositions g k)) :
    mergeRecord (mergeRecord ix g) g = mergeRecord ix g := by
  cases hr : replayGame g with
  | error e => simp [mergeRecord, hr]
  | ok m =>
    have hall : ∀ k, gVideosNodup (m k) := by
      intro k
      by_cases hk : k ∈ g.plies.map Ply.fen
      · have hx := h k hk
        simp only [replayPositions, hr] at hx
        exact hx
      · have hm : m k = none := by
        -- replayGame g = ok m forces runGame g = ok st with st.positions = m
          simp only [replayGame] at hr
          cases hrun : runGame g with
          | error e => rw [hrun] at hr; cases hr
          | ok st =>
            rw [hrun] at hr
            cases hr
            simp only [runGame] at hrun
            have := runPlies_untouched g.youtubeUrl (get_youtube_start_time g.youtubeUrl)
              (daniel_color g.whiteUsername) g.plies initReplayState st hrun k hk
            exact this
        rw [hm]
        trivial
    simp only [mergeRecord, hr]
    exact mergeMap_idem ix m hall

/-- Claim C2, witness for the amended theorem at a one-ply game. -/

theorem claim_C2_witness :
    (∀ k ∈ gameA.plies.map Ply.fen, gVideosNodup (replayPositions gameA k)) ∧
      mergeRecord (mergeRecord emptyIndex gameA) gameA = mergeRecord emptyIndex gameA :=
  ⟨by decide, claim_C2_amended gameA emptyIndex (by decide)⟩

/-- Claim C3: for games whose replay succeeds, merging A then B into any
index is identical to merging B then A: the UPDATE branch unions sets,
union is commutative and associative, and a key only one game touches
receives the same row either way. -/

theorem claim_C3_merge_commutes (a b : GameRecord) (ix : Index)
    (ha : isOkE (replayGame a) = true) (hb : isOkE (replayGame b) = true) :
    mergeRecord (mergeRecord ix a) b = mergeRecord (mergeRecord ix b) a := by
  cases hra : replayGame a with
  | error e => rw [hra] at ha; simp [isOkE] at ha
  | ok ma =>
    cases hrb : replayGame b with
    | error e => rw [hrb] at hb; simp [isOkE] at hb
    | ok mb =>
      simp only [mergeRecord, hra, hrb]
      exact mergeMap_comm ix ma mb

/-- Claim C3, witness at two one-ply games sharing the starting key. -/

theorem claim_C3_witness :
    isOkE (replayGame gameA) = true ∧ isOkE (replayGame gameB) = true ∧
      mergeRecord (mergeRecord emptyIndex gameA) gameB =
        mergeRecord (mergeRecord emptyIndex gameB) gameA :=
  ⟨by decide, by decide,
    claim_C3_merge_commutes gameA gameB emptyIndex (by decide) (by decide)⟩

/-- Claim C4, counterexample: a game whose movetext reaches an illegal
move is truncated by the PGN reader, not discarded; the plies before the
failing move do contribute to the index.  A one-ply game followed by an
illegal move leaves the starting position in the database, with the move
e4 recorded, where the claim requires the key to be absent. -/

theorem claim_C4_counterexample :
    indexAtAfterBatch [rawIllegal] fenStartKey ≠ some none ∧
      indexAtAfterBatch [rawIllegal] fenStartKey ≠ none ∧
      (((indexAtAfterBatch [rawIllegal] fenStartKey).getD none).getD entryZero).nextFaced =
        {"e4"} ∧
      (((indexAtAfterBatch [rawIllegal] fenStartKey).getD none).getD entryZero).videos =
        {linkT0} :=
  ⟨by decide, by decide, by decide, by decide⟩

/-- Claim C4, amended: a record that cannot be parsed at all contributes
nothing and processing continues with the remaining records; a parsed
record is replayed over exactly the plies preceding any illegal move, so
those plies do contribute, and processing likewise continues. -/

theorem claim_C4_amended (ix : Index) (rs1 rs2 : List RawGame) (r : RawGame) :
    (r.unparseable = true → processBatch ix (rs1 ++ r :: rs2) = processBatch ix (rs1 ++ rs2)) ∧
      (r.unparseable = false →
        processBatch ix (r :: rs2) =
          match replayGame (gameOf r) with
          | Except.error e => Except.error e
          | Except.ok m => processBatch (mergeMap ix m) rs2) := by
  constructor
  · intro h
    exact processBatch_skip rs1 ix r rs2 h
  · intro h
    simp only [processBatch, read_game, h, if_neg, Bool.false_eq_true, not_false_iff]

/-- Claim C4, witness: both halves of the amended statement at concrete
records. -/

theorem claim_C4_witness :
    rawBad.unparseable = true ∧ rawIllegal.unparseable = false ∧
      processBatch emptyIndex ([] ++ rawBad :: []) = processBatch emptyIndex ([] ++ []) ∧
      processBatch emptyIndex (rawIllegal :: []) =
        (match replayGame (gameOf rawIllegal) with
          | Except.error e => Except.error e
          | Except.ok m => processBatch (mergeMap emptyIndex m) []) :=
  ⟨rfl, rfl, (claim_C4_amended emptyIndex [] [] rawBad).1 rfl,
    (claim_C4_amended emptyIndex [] [] rawIllegal).2 rfl⟩

/-- Claim C5, counterexample: the Timestamp Builder splits only on the
ampersand delimiter, so a reference whose time parameter was introduced
by a question mark is not stripped: on the specification scenario the
produced reference is the original with an appended parameter, it
carries two time parameters rather than exactly one, and the program
reading the produced reference back obtains 50, not 70. -/

theorem claim_C5_counterexample :
    buildVideoLink exUrlQ (get_youtube_start_time exUrlQ + pyTrunc (mkRat 20 1)) = exOut ∧
      parseQsT (urlQuery exOut) = ["50", "70"] ∧
      (parseQsT (urlQuery exOut)).length ≠ 1 ∧
      get_youtube_start_time exOut = 50 :=
  ⟨by decide, by decide, by decide, by decide⟩

/-- Claim C5, amended: the produced reference is everything before the
first ampersand-t delimiter of the original with the new time parameter
appended; the appended parameter equals base offset plus the truncated
cumulative elapsed time, and a trailing parameter introduced by the
ampersand delimiter is replaced, but one introduced by a question mark
survives, leaving two time parameters with the original first. -/

theorem claim_C5_amended :
    (∀ (url : String) (t : ℤ),
        buildVideoLink url t = (pySplit url sepT).headD "" ++ sepT ++ toString t) ∧
      buildVideoLink exUrlAmp 70 = "https://example/watch&t=70" ∧
      get_youtube_start_time exUrlQ + pyTrunc (mkRat 20 1) = 70 ∧
      buildVideoLink exUrlQ 70 = exOut :=
  ⟨fun _ _ => rfl, by decide, by decide, by decide⟩

/-- Claim C6, counterexample: the stored collections are not always
duplicate-free.  Freshly inserting the repeated-position game stores its
per-game video list verbatim, and that list holds the same link twice. -/

theorem claim_C6_counterexample :
    ¬ (((mergeRecord emptyIndex gameRepeat) fenStartKey).getD entryZero).videos.Nodup := by
  decide

/-- Claim C6, amended: after any merge, the two move collections of a
merged key hold no duplicates; the video collection holds no duplicates
whenever the key already existed (the UPDATE branch loads and unions
sets), but a freshly created key receives the per-game video list
verbatim, including any duplicates accumulated within that game. -/

theorem claim_C6_amended (ix : Index) (m : GameMap) (k : String) (e : Entry) (info : GEntry)
    (hm : m k = some info) (h : mergeMap ix m k = some e) :
    e.nextByDaniel.val.Nodup ∧ e.nextFaced.val.Nodup ∧
      ((ix k).isSome = true → e.videos.Nodup) ∧
      (ix k = none → e.videos = (info.videos : Multiset String)) := by
  simp only [mergeMap, hm] at h
  cases hix : ix k with
  | none =>
    rw [hix] at h
    cases h
    refine ⟨Finset.nodup _, Finset.nodup _, ?_, ?_⟩
    · intro hs
      exact absurd hs (by decide)
    · intro _
      rfl
  | some pre =>
    rw [hix] at h
    cases h
    refine ⟨Finset.nodup _, Finset.nodup _, ?_, ?_⟩
    · intro _
      exact (pre.videos.toFinset ∪ info.videos.toFinset).nodup
    · intro hn
      cases hn

/-- Claim C6, witness for the amended theorem at a concrete one-key
index and per-game map. -/

theorem claim_C6_witness :
    mW keyW = some infoW ∧ mergeMap ixW mW keyW = some eW ∧
      (eW.nextByDaniel.val.Nodup ∧ eW.nextFaced.val.Nodup ∧
        ((ixW keyW).isSome = true → eW.videos.Nodup) ∧
        (ixW keyW = none → eW.videos = (infoW.videos : Multiset String))) :=
  ⟨rfl, rfl, claim_C6_amended ixW mW keyW eW infoW rfl rfl⟩

/-- Claim C7, counterexample: the clock extractor is not exception
free on malformed literals: a seconds group with two dots matches the
regular expression but the float conversion raises an uncaught
ValueError. -/

theorem claim_C7_counterexample : parse_clock commentBad = Except.error () := by
  decide

/-- Claim C7, amended: the extractor returns none, without raising, when
the comment holds no clock pattern at all; it returns the parsed
duration when the pattern matches with a convertible seconds group; but
a matched pattern whose seconds group is not a valid decimal literal
raises an uncaught exception instead of returning none. -/

theorem claim_C7_amended (c : String) :
    (searchClock c.toList = none → parse_clock c = Except.ok none) ∧
      (∀ g1 g2 g3 v, searchClock c.toList = some (g1, g2, g3) → pyFloatDD g3 = some v →
        parse_clock c = Except.ok (some (clockVal g1 g2 v))) ∧
      parse_clock commentGood = Except.ok (some (mkRat 1819 10)) := by
  refine ⟨?_, ?_, by decide⟩
  · intro h
    have hd : searchClock c.data = none := h
    simp [parse_clock, hd]
  · intro g1 g2 g3 v h1 h2
    have hd : searchClock c.data = some (g1, g2, g3) := h1
    simp [parse_clock, hd, h2]

/-- Claim C7, witness: a comment with no clock yields ok none through
the amended theorem. -/

theorem claim_C7_witness :
    searchClock commentNone.toList = none ∧ parse_clock commentNone = Except.ok none :=
  ⟨by decide, (claim_C7_amended commentNone).1 (by decide)⟩

/-- Claim C8: the elapsed-time contribution of one ply equals the
previous reading of the side to move minus the new reading when both
exist and that difference is positive, and is exactly zero when a
reading is missing or the new reading is at least the previous one; in
particular it is never negative. -/

theorem claim_C8_elapsed_guard (url : String) (ys : ℤ) (dc : String) (st : ReplayState)
    (p : Ply) (cur : Option ℚ) (hc : parse_clock p.comment = Except.ok cur) :
    stepElapsed url ys dc st p = some (clockDelta (lastClockFor st p) cur) ∧
      0 ≤ clockDelta (lastClockFor st p) cur := by
  constructor
  · simp only [stepElapsed, replayStep, hc]
    congr 1
    rw [qSub_eq]
    show advanceTotal st.totalTimeElapsed
        (if p.whiteToMove then st.lastClockWhite else st.lastClockBlack) cur -
        st.totalTimeElapsed = clockDelta (lastClockFor st p) cur
    rw [advanceTotal_eq, lastClockFor]
    ring
  · exact clockDelta_nonneg _ _

/-- Claim C8, witness: a white ply with a previous reading of 300 and a
new reading of 280 contributes 20 seconds. -/

theorem claim_C8_witness :
    parse_clock plyClock.comment = Except.ok curClock ∧
      (stepElapsed urlU 0 blackWord clockSt plyClock =
          some (clockDelta (lastClockFor clockSt plyClock) curClock) ∧
        0 ≤ clockDelta (lastClockFor clockSt plyClock) curClock) ∧
      clockDelta (lastClockFor clockSt plyClock) curClock = mkRat 20 1 :=
  ⟨rfl, claim_C8_elapsed_guard urlU 0 blackWord clockSt plyClock curClock rfl, by
    have h1 : lastClockFor clockSt plyClock = some (mkRat 300 1) := rfl
    have h2 : curClock = some (mkRat 280 1) := by decide
    rw [h1, h2]
    show (if 0 < mkRat 300 1 - mkRat 280 1 then mkRat 300 1 - mkRat 280 1 else 0) = mkRat 20 1
    norm_num [Rat.mkRat_eq_div]⟩

/-- Claim C9, counterexample: the per-ply video timestamps of a game are
not pairwise distinct and strictly increasing in general: with no clock
annotations every ply carries the same timestamp. -/

theorem claim_C9_counterexample :
    linkTimesOf gameTwoPly = [0, 0] ∧
      ¬ List.Pairwise (fun a b : ℤ => a < b) (linkTimesOf gameTwoPly) ∧
      ¬ List.Pairwise (fun a b : ℤ => a ≠ b) (linkTimesOf gameTwoPly) :=
  ⟨by decide, by decide, by decide⟩

/-- Claim C9, amended: the per-ply timestamps of any game replay are
nondecreasing from the first ply to the last; they are not strictly
increasing in general, since a ply whose clock delta truncates to zero
seconds repeats the previous timestamp. -/

theorem claim_C9_amended (g : GameRecord) :
    List.Pairwise (fun a b : ℤ => a ≤ b) (linkTimesOf g) := by
  simp only [linkTimesOf]
  cases hr : runGame g with
  | error e => exact List.Pairwise.nil
  | ok st =>
    simp only [runGame] at hr
    have h0 : (0 : ℚ) ≤ initReplayState.totalTimeElapsed := by
      show (0 : ℚ) ≤ mkRat 0 1
      rw [mkRat_zero_one]
    have hinv := runPlies_invariant g.youtubeUrl (get_youtube_start_time g.youtubeUrl)
      (daniel_color g.whiteUsername) g.plies initReplayState st hr h0
      (by intro t ht; cases ht) List.Pairwise.nil
    exact hinv.2.2

/-- Claim C10: the subject color is decided solely by comparing the
lowercased white username against the four known names; whoever the
black player is plays no role, and in a game whose white player is not a
known name every black-to-move ply records its move among the subject
moves. -/

theorem claim_C10_subject_color (g : GameRecord) (url : String) (ys : ℤ) (st : ReplayState)
    (p : Ply) (cur : Option ℚ) :
    (daniel_color g.whiteUsername = whiteWord ↔ lowerStr g.whiteUsername ∈ daniel_usernames) ∧
      (daniel_color g.whiteUsername = blackWord ↔ lowerStr g.whiteUsername ∉ daniel_usernames) ∧
      (∀ bu : String, subjectColor { g with blackUsername := bu } = subjectColor g) ∧
      (lowerStr g.whiteUsername ∉ daniel_usernames → p.whiteToMove = false →
        parse_clock p.comment = Except.ok cur →
        ∃ info, stepEntryAt url ys (daniel_color g.whiteUsername) st p p.fen =
            some (some info) ∧ p.san ∈ info.nextByDaniel) := by
  have hww : whiteWord ≠ blackWord := by decide
  refine ⟨?_, ?_, fun _ => rfl, ?_⟩
  · rw [daniel_color]
    by_cases hmem : lowerStr g.whiteUsername ∈ daniel_usernames
    · simp [hmem]
    · simp [hmem, Ne.symm hww]
  · rw [daniel_color]
    by_cases hmem : lowerStr g.whiteUsername ∈ daniel_usernames
    · simp [hmem, hww]
    · simp [hmem, Ne.symm hww]
  · intro hmem hb hc
    have hdc : daniel_color g.whiteUsername = blackWord := by
      rw [daniel_color, if_neg hmem]
    rw [hdc]
    simp only [stepEntryAt, replayStep, hc, hb]
    simp only [Bool.false_eq_true, if_false, ite_true, ite_false, if_pos]
    exact ⟨_, rfl, Finset.mem_insert_self _ _⟩

/-- Claim C10, witness: with white player RandomGuy, unknown to the
name set, a black ply lands its move in the subject move set. -/

theorem claim_C10_witness :
    lowerStr gUnknown.whiteUsername ∉ daniel_usernames ∧ plyBlack.whiteToMove = false ∧
      parse_clock plyBlack.comment = Except.ok none ∧
      ∃ info, stepEntryAt urlNoParam 0 (daniel_color gUnknown.whiteUsername) initReplayState
          plyBlack plyBlack.fen = some (some info) ∧ plyBlack.san ∈ info.nextByDaniel :=
  ⟨by decide, rfl, by decide,
    (claim_C10_subject_color gUnknown urlNoParam 0 initReplayState plyBlack none).2.2.2
      (by decide) rfl (by decide)⟩
